import Mathlib

/-!
Verification development for the chambr repository.

The development shallowly embeds the Go source under `src/`:

* `src/pkg/override.go` — the `Override`/`Toggle` data model, value type
  checking (`IsValidValue`), validation performed inside
  `Toggle.UnmarshalJSON`, override lookup (`GetOverride`) and toggle
  resolution (`GetValueAt`).  These rely on the external library
  `golang.org/x/mod/semver`, whose `Compare` function is embedded here in
  full (an invalid version string compares less than any valid one, and
  all invalid strings compare equal to each other).
* `src/cmd/build.go` — the `compile` tree walk.
* `src/http/handler.go` — the `/v1/` HTTP handler, embedded as a pure
  function from an abstract storage backend and a request to a response
  together with the trace of storage operations performed.

Repository code that is referenced by the sources above but absent from
`src/` (the `Chamber` structure with `InheritWith`, the storage contract,
and the `utils` helpers) is modelled from the specification; each such
definition carries a doc comment starting with `Modelled from the spec:`.
Go byte strings are treated as their character sequences; all paths and
versions involved are ASCII, so character counts coincide with Go byte
counts.
-/

/-! ## Embedding of golang.org/x/mod/semver

Transcribed from the `semver` package used by `src/pkg/override.go`:
`parse` recognises `vMAJOR[.MINOR[.PATCH]][-PRERELEASE][+BUILD]`, and
`Compare` orders two version strings by semantic-version precedence,
treating every syntactically invalid version as less than every valid one
and all invalid versions as equal to each other.
-/

/-- Longest leading run of decimal digits of a character list, with the
remainder. -/
def takeDigits : List Char → List Char × List Char
  | [] => ([], [])
  | c :: cs =>
    if c.isDigit then
      let p := takeDigits cs
      (c :: p.1, p.2)
    else ([], c :: cs)

/-- Go `semver.parseInt`: a non-empty digit run without a leading zero
(unless it is exactly "0"), returning the run and the rest. -/
def parseIntCh : List Char → Option (List Char × List Char)
  | [] => none
  | c :: cs =>
    if c.isDigit then
      let p := takeDigits cs
      if c = '0' ∧ p.1 ≠ [] then none else some (c :: p.1, p.2)
    else none

/-- Go `semver.isIdentChar`: ASCII letters, digits and hyphen. -/
def isIdentChar (c : Char) : Bool :=
  c.isAlpha || c.isDigit || c = '-'

/-- Go `semver.isNum`: every character is a digit (vacuously true for the
empty list, as in the source). -/
def isNumChars (l : List Char) : Bool :=
  l.all (fun c => c.isDigit)

/-- Go `semver.isBadNum`: an all-digit identifier longer than one digit
with a leading zero. -/
def isBadNumChars (l : List Char) : Bool :=
  isNumChars l && decide (1 < l.length) && (l.head? == some '0')

/-- Longest leading run of identifier characters, with the remainder. -/
def takeSeg : List Char → List Char × List Char
  | [] => ([], [])
  | c :: cs =>
    if isIdentChar c then
      let p := takeSeg cs
      (c :: p.1, p.2)
    else ([], c :: cs)

/-- Go `semver.parsePrerelease` body after the leading `-`: a non-empty
dot-separated sequence of non-empty identifiers, none a bad number,
stopping at `+` or the end.  Returns the consumed text (dots included)
and the remainder. -/
def preBody (v : List Char) : Option (List Char × List Char) :=
  if (takeSeg v).1 = [] then none
  else if isBadNumChars (takeSeg v).1 then none
  else
    match hr : (takeSeg v).2 with
    | [] => some ((takeSeg v).1, [])
    | c :: cs =>
      if c = '.' then
        match preBody cs with
        | none => none
        | some q => some ((takeSeg v).1 ++ '.' :: q.1, q.2)
      else if c = '+' then some ((takeSeg v).1, c :: cs)
      else none
termination_by v.length
decreasing_by
  have hlen : ∀ l : List Char, (takeSeg l).1.length + (takeSeg l).2.length = l.length := by
    intro l
    induction l with
    | nil => simp [takeSeg]
    | cons a as ih =>
      by_cases h : isIdentChar a = true
      · simp [takeSeg, h]
        omega
      · simp [takeSeg, h]
  have h := hlen v
  rw [hr] at h
  simp at h
  omega

/-- Go `semver.parseBuild` body after the leading `+`: a non-empty
dot-separated sequence of non-empty identifiers running to the end of the
string. -/
def buildBody (v : List Char) : Bool :=
  if (takeSeg v).1 = [] then false
  else
    match hr : (takeSeg v).2 with
    | [] => true
    | c :: cs => if c = '.' then buildBody cs else false
termination_by v.length
decreasing_by
  have hlen : ∀ l : List Char, (takeSeg l).1.length + (takeSeg l).2.length = l.length := by
    intro l
    induction l with
    | nil => simp [takeSeg]
    | cons a as ih =>
      by_cases h : isIdentChar a = true
      · simp [takeSeg, h]
        omega
      · simp [takeSeg, h]
  have h := hlen v
  rw [hr] at h
  simp at h
  omega

/-- Result of Go `semver.parse`: the numeric components as digit strings
and the prerelease text (with its leading `-`, or empty).  The build
suffix is validated but ignored by comparison, as in the source. -/
structure SemParsed where
  major : List Char
  minor : List Char
  patch : List Char
  prerelease : List Char
deriving DecidableEq

/-- Tail of Go `semver.parse` after the numeric components: an optional
`-PRERELEASE` followed by an optional `+BUILD`, then the end of the
string. -/
def semParseTail (major minor patch : List Char) : List Char → Option SemParsed
  | [] => some ⟨major, minor, patch, []⟩
  | '-' :: pr =>
    match preBody pr with
    | none => none
    | some (body, r) =>
      match r with
      | [] => some ⟨major, minor, patch, '-' :: body⟩
      | '+' :: bd => if buildBody bd then some ⟨major, minor, patch, '-' :: body⟩ else none
      | _ => none
  | '+' :: bd => if buildBody bd then some ⟨major, minor, patch, []⟩ else none
  | _ => none

/-- Go `semver.parse`: a leading `v`, then `MAJOR[.MINOR[.PATCH]]` with
missing components defaulting to zero, then the optional suffixes. -/
def semParse : List Char → Option SemParsed
  | [] => none
  | c :: rest =>
    if c ≠ 'v' then none
    else
      match parseIntCh rest with
      | none => none
      | some (major, r1) =>
        match r1 with
        | [] => some ⟨major, ['0'], ['0'], []⟩
        | c1 :: r2 =>
          if c1 ≠ '.' then none
          else
            match parseIntCh r2 with
            | none => none
            | some (minor, r3) =>
              match r3 with
              | [] => some ⟨major, minor, ['0'], []⟩
              | c2 :: r4 =>
                if c2 ≠ '.' then none
                else
                  match parseIntCh r4 with
                  | none => none
                  | some (patch, r5) => semParseTail major minor patch r5

/-- Go `semver.nextIdent`: the prerelease identifier before the next dot,
with the remainder (dot included). -/
def nextIdent : List Char → List Char × List Char
  | [] => ([], [])
  | c :: cs =>
    if c = '.' then ([], c :: cs)
    else
      let p := nextIdent cs
      (c :: p.1, p.2)

/-- Bytewise lexicographic comparison of ASCII character lists, matching
the Go `<` operator on the strings involved here. -/
def ltChars : List Char → List Char → Bool
  | [], [] => false
  | [], _ :: _ => true
  | _ :: _, [] => false
  | a :: as, b :: bs => if a < b then true else if b < a then false else ltChars as bs

/-- Go `semver.compareInt` on decimal digit strings: equal strings are
equal, a shorter string is smaller, same-length strings compare
lexicographically. -/
def compareIntStr (x y : List Char) : Int :=
  if x = y then 0
  else if x.length < y.length then -1
  else if y.length < x.length then 1
  else if ltChars x y then -1 else 1

/-- Loop of Go `semver.comparePrerelease`: strip the leading `-` or `.`,
compare the next identifiers (numeric before alphanumeric, numeric by
magnitude, otherwise bytewise), and continue while they agree. -/
def comparePreLoop : List Char → List Char → Int
  | [], _ => -1
  | _ :: _, [] => 1
  | _ :: xs, _ :: ys =>
    match hx : nextIdent xs, hy : nextIdent ys with
    | (dx, x1), (dy, y1) =>
      if dx = dy then comparePreLoop x1 y1
      else if isNumChars dx ≠ isNumChars dy then (if isNumChars dx then -1 else 1)
      else if isNumChars dx ∧ dx.length < dy.length then -1
      else if isNumChars dx ∧ dy.length < dx.length then 1
      else if ltChars dx dy then -1 else 1
termination_by x y => x.length
decreasing_by
  have hlen : ∀ l : List Char, (nextIdent l).2.length ≤ l.length := by
    intro l
    induction l with
    | nil => simp [nextIdent]
    | cons a as ih =>
      by_cases h : a = '.'
      · simp [nextIdent, h]
      · simp [nextIdent, h]
        omega
  have h := hlen xs
  rw [hx] at h
  simp only [List.length_cons] at h ⊢
  omega

/-- Go `semver.comparePrerelease`: the empty prerelease (a release) is
greater than any non-empty one; otherwise compare identifier by
identifier. -/
def comparePreRel (x y : List Char) : Int :=
  if x = y then 0
  else if x = [] then 1
  else if y = [] then -1
  else comparePreLoop x y

/-- Go `semver.Compare`: both invalid is equal, invalid is less than
valid, and two valid versions compare by major, minor, patch and then
prerelease. -/
def semverCompare (v w : String) : Int :=
  match semParse v.data, semParse w.data with
  | none, none => 0
  | none, some _ => -1
  | some _, none => 1
  | some pv, some pw =>
    let c1 := compareIntStr pv.major pw.major
    if c1 ≠ 0 then c1
    else
      let c2 := compareIntStr pv.minor pw.minor
      if c2 ≠ 0 then c2
      else
        let c3 := compareIntStr pv.patch pw.patch
        if c3 ≠ 0 then c3
        else comparePreRel pv.prerelease pw.prerelease

example : semverCompare "v1.2.0" "v1.3.0" = -1 := by decide
example : semverCompare "" "v1.0.0" = -1 := by decide
example : semverCompare "v1.0.0" "" = 1 := by decide
example : semverCompare "" "" = 0 := by decide
example : semverCompare "v1.1.0" "v1.1.0" = 0 := by decide
example : semverCompare "v1.10.0" "v1.9.0" = 1 := by decide
example : semverCompare "v2.0.0" "v1.0.0" = 1 := by decide

/-! ## Data model from src/pkg/override.go

Go `interface\x7b\x7d` values are embedded as a closed universe of the
runtime shapes relevant to the source: JSON booleans, strings and numbers
(decoded by Go as `bool`, `string` and `float64`), the untyped `nil`
produced by JSON `null`, and values of any other runtime type carrying
their `reflect` type name.  Numeric payloads are carried opaquely as
integers; the source never computes with them, it only inspects the
runtime type name. -/
inductive GoValue where
  | VBool (b : Bool)
  | VString (s : String)
  | VNumber (payload : Int)
  | VNil
  | VOther (typeName : String)
deriving DecidableEq

/-- The name `reflect.TypeOf(value).String()` would yield, or `none` when
`value` is the nil interface, for which `reflect.TypeOf` returns a nil
`reflect.Type` and the `String` call panics. -/
def reflectTypeName : GoValue → Option String
  | .VBool _ => some "bool"
  | .VString _ => some "string"
  | .VNumber _ => some "float64"
  | .VNil => none
  | .VOther typeName => some typeName

/-- Go `type ToggleType string`. -/
abbrev ToggleType := String

def booleanType : ToggleType := "boolean"

def stringType : ToggleType := "string"

def numberType : ToggleType := "number"

def customType : ToggleType := "custom"

/-- The `Override` of src/pkg/override.go: a value restricted to a
semantic version range.  Only the JSON-visible fields are embedded; the
parsed `Version` pointers of the struct are not consulted by any of the
operations verified here, which compare the version strings directly via
`semver.Compare`. -/
structure Override where
  MinimumVersion : String
  MaximumVersion : String
  Value : GoValue
deriving DecidableEq

/-- The `Toggle` of src/pkg/override.go: a named, typed value with an
ordered list of overrides.  The Go field `Type` is spelled `Type'` here
because `Type` is a Lean keyword. -/
structure Toggle where
  Name : String
  Type' : ToggleType
  Value : GoValue
  Overrides : List Override
deriving DecidableEq

/-- Outcome of a Go boolean function that may panic. -/
inductive CheckResult where
  | panicked
  | ok (b : Bool)
deriving DecidableEq

/-- `Toggle.IsValidValue` from src/pkg/override.go: switch on
`reflect.TypeOf(value).String()`; the `bool`, `string` and `float64`
runtime types must match the declared toggle type and every other runtime
type is rejected.  A nil interface value makes the `String()` call panic
before the switch is reached. -/
def Toggle.IsValidValue (t : Toggle) (value : GoValue) : CheckResult :=
  match reflectTypeName value with
  | none => .panicked
  | some typeOfValue =>
    if typeOfValue = "bool" then .ok (t.Type' == booleanType)
    else if typeOfValue = "string" then .ok (t.Type' == stringType)
    else if typeOfValue = "float64" then .ok (t.Type' == numberType)
    else .ok false

/-- Outcome of the validation performed by `Toggle.UnmarshalJSON` after
the structural decode: success, a returned error (the overlapping-range
error or the type-mismatch error), or a runtime panic. -/
inductive VResult where
  | ok
  | overlapErr
  | typeErr
  | panicked
deriving DecidableEq

/-- Guard of the overlap check in `Toggle.UnmarshalJSON`:
`previous != nil && semver.Compare(previous.MaximumVersion, override.MinimumVersion) == 1`. -/
def overlapsPrev : Option Override → Override → Bool
  | none, _ => false
  | some previous, o => semverCompare previous.MaximumVersion o.MinimumVersion == 1

/-- Loop of `Toggle.UnmarshalJSON` over `t.Overrides` with the running
`previous` pointer: fail on an overlap with the previous override, fail
on an override value of the wrong type, otherwise continue with the
current override as the new `previous`. -/
def checkOverrides (t : Toggle) : Option Override → List Override → VResult
  | _, [] => .ok
  | previous, o :: rest =>
    if overlapsPrev previous o then .overlapErr
    else
      match t.IsValidValue o.Value with
      | .panicked => .panicked
      | .ok false => .typeErr
      | .ok true => checkOverrides t (some o) rest

/-- The validation phase of `Toggle.UnmarshalJSON` from
src/pkg/override.go, run on the structurally decoded toggle: the toggle
value must match the declared type, then the overrides are checked in
declared order. -/
def Toggle.unmarshalValidate (t : Toggle) : VResult :=
  match t.IsValidValue t.Value with
  | .panicked => .panicked
  | .ok false => .typeErr
  | .ok true => checkOverrides t none t.Overrides

/-- Loop of `Toggle.GetOverride` from src/pkg/override.go: return the
first override whose version range check passes. -/
def findOverride (version : String) : List Override → Option Override
  | [] => none
  | o :: rest =>
    if semverCompare o.MinimumVersion version ≤ 0 ∧ semverCompare o.MaximumVersion version ≥ 0
    then some o
    else findOverride version rest

/-- `Toggle.GetOverride` from src/pkg/override.go. -/
def Toggle.GetOverride (t : Toggle) (version : String) : Option Override :=
  findOverride version t.Overrides

/-- `Toggle.GetValueAt` from src/pkg/override.go: the override value when
the version is non-empty and an override matches, the default value
otherwise. -/
def Toggle.GetValueAt (t : Toggle) (version : String) : GoValue :=
  if version ≠ "" then
    match t.GetOverride version with
    | some o => o.Value
    | none => t.Value
  else t.Value

/-- The range test inlined in `Toggle.GetOverride`:
`semver.Compare(min, version) <= 0 && semver.Compare(max, version) >= 0`. -/
def rangeContains (o : Override) (version : String) : Bool :=
  decide (semverCompare o.MinimumVersion version ≤ 0) &&
    decide (semverCompare o.MaximumVersion version ≥ 0)

/-- Containment as worded by the spec for claim C3: `min ≤ version ≤ max`
under semantic-version comparison, with an empty endpoint treated as
unbounded in that direction.  Stated from the words of the spec, to be
compared against `rangeContains` from the source. -/
def specContains (o : Override) (version : String) : Bool :=
  ((o.MinimumVersion == "") || decide (semverCompare o.MinimumVersion version ≤ 0)) &&
    ((o.MaximumVersion == "") || decide (semverCompare o.MaximumVersion version ≥ 0))

/-- The type pairing worded by claim C5: the runtime type of the value
matches the declared toggle type under boolean↔bool, string↔string and
number↔float64. -/
def runtimeTypeMatches (t : Toggle) (v : GoValue) : Prop :=
  (reflectTypeName v = some "bool" ∧ t.Type' = booleanType) ∨
    (reflectTypeName v = some "string" ∧ t.Type' = stringType) ∨
    (reflectTypeName v = some "float64" ∧ t.Type' = numberType)

instance (t : Toggle) (v : GoValue) : Decidable (runtimeTypeMatches t v) := by
  unfold runtimeTypeMatches
  infer_instance

example :
    Toggle.GetValueAt ⟨"t", booleanType, .VBool true, [⟨"v1.0.0", "v1.5.0", .VBool false⟩]⟩
      "v1.2.0" = .VBool false := by decide
example :
    Toggle.GetValueAt ⟨"t", booleanType, .VBool true, [⟨"v1.0.0", "v1.5.0", .VBool false⟩]⟩
      "v2.0.0" = .VBool true := by decide
example :
    Toggle.GetValueAt ⟨"t", booleanType, .VBool true, [⟨"v1.0.0", "v1.5.0", .VBool false⟩]⟩
      "" = .VBool true := by decide
example :
    Toggle.unmarshalValidate ⟨"t", numberType, .VString "oops", []⟩ = .typeErr := by decide

/-! ## Chamber tree and the compiler from src/cmd/build.go -/

/-- Modelled from the spec: a toggle mapping (Go `map[string]*Toggle`)
is embedded as an association list from toggle names to toggles; the
claims settled here do not depend on map iteration order. -/
abbrev TogMap := List (String × Toggle)

/-- Map update on the association list: replace the binding for the key
when present, append it otherwise. -/
def togSet : TogMap → String → Toggle → TogMap
  | [], k, t => [(k, t)]
  | (k', t') :: rest, k, t =>
    if k' == k then (k, t) :: rest else (k', t') :: togSet rest k t

/-- Modelled from the spec: a `Chamber` is a tree node with a name, a
toggle mapping, an ordered list of owned children and the `buildable` and
`app` output flags. -/
inductive Chamber where
  | mk (Name : String) (Toggles : TogMap) (Children : List Chamber)
      (Buildable : Bool) (App : Bool)

def Chamber.Name : Chamber → String
  | .mk n _ _ _ _ => n

def Chamber.Toggles : Chamber → TogMap
  | .mk _ t _ _ _ => t

def Chamber.Children : Chamber → List Chamber
  | .mk _ _ c _ _ => c

def Chamber.Buildable : Chamber → Bool
  | .mk _ _ _ b _ => b

def Chamber.App : Chamber → Bool
  | .mk _ _ _ _ a => a

/-- Replace a chamber node toggle mapping, keeping everything else; the
functional image of the Go assignment `parent.Children[i].Toggles = built`. -/
def setToggles : Chamber → TogMap → Chamber
  | .mk n _ c b a, tg => .mk n tg c b a

/-- Modelled from the spec: `InheritWith` produces a new toggle mapping
holding every entry of the parent mapping, then overwritten and extended
by the chamber's own toggles, local definitions winning on a name
collision; the parent mapping is not mutated. -/
def Chamber.InheritWith (c : Chamber) (parentToggles : TogMap) : TogMap :=
  c.Toggles.foldl (fun acc p => togSet acc p.1 p.2) parentToggles

/-- An offline build artifact: the file name passed to
`utils.WriteChamberToFile` and the chamber value written there.
Modelled from the spec: writing the file is embedded as emitting this
pair. -/
abbrev Artifact := String × Chamber

/-- Node-count measure used to justify termination of the compile walk;
it ignores the toggle mapping, which the walk rewrites. -/
def csize : Chamber → Nat
  | .mk _ _ kids _ _ => 1 + csizeKids kids
where
  csizeKids : List Chamber → Nat
    | [] => 0
    | c :: cs => 1 + csize c + csizeKids cs

mutual

/-- `compile` from src/cmd/build.go: emit the current node to
`./<Name>.json` when it is buildable or an app, then walk the children
after replacing each child toggle mapping with the merge
`child.InheritWith(parent.Toggles)`. -/
def compile (parent : Chamber) : List Artifact :=
  (if parent.Buildable || parent.App then [("./" ++ parent.Name ++ ".json", parent)] else [])
    ++ compileKids parent.Toggles parent.Children
termination_by csize parent
decreasing_by
  obtain ⟨n, t, kids, b, a⟩ := parent
  simp only [csize, Chamber.Children]
  omega

/-- The loop over `parent.Children` inside `compile`: each child receives
the merged toggle mapping in place before being compiled. -/
def compileKids (parentToggles : TogMap) : List Chamber → List Artifact
  | [] => []
  | child :: rest =>
    compile (setToggles child (child.InheritWith parentToggles))
      ++ compileKids parentToggles rest
termination_by l => csize.csizeKids l
decreasing_by
  · have hset : ∀ (c : Chamber) (tg : TogMap), csize (setToggles c tg) = csize c := by
      intro c tg
      obtain ⟨n, t, kids, b, a⟩ := c
      simp [setToggles, csize]
    simp only [csize.csizeKids, hset]
    omega
  · simp only [csize.csizeKids]
    omega

end

/-! ## HTTP handler from src/http/handler.go

The handler is embedded as a pure function from an abstract storage
backend and a request to the response written through `handleResponse`
paired with the trace of storage operations performed.  The JSON codec
(`encoding/json` and the repository `utils` readers and writers, which
are not under `src/`) is abstracted: a byte string is either empty,
well-formed JSON for some chamber, or malformed, and the response is
represented as its envelope fields rather than serialized text. -/

/-- Modelled from the spec: raw bytes of a request body or storage entry.
A well-formed chamber document keeps, besides the chamber it decodes to,
an `extra` tag standing for all byte-level content (field order, unknown
fields, whitespace) that decoding ignores, so distinct byte strings
decoding to the same chamber stay distinct values. -/
inductive RawBytes where
  | empty
  | chamberJson (c : Chamber) (extra : String)
  | malformed (tag : String)

/-- Modelled from the spec: `json.Unmarshal` of stored bytes into a
`realm.Chamber`, abstracted to its outcome.  Empty input is a decode
error, as in Go. -/
def unmarshalChamber : RawBytes → Option Chamber
  | .chamberJson c _ => some c
  | _ => none

/-- Outcome of `utils.ReadInterfaceWith` on a request body. -/
inductive BodyDecode where
  | eofErr
  | decodeErr
  | ok (c : Chamber)

/-- Modelled from the spec: `utils.ReadInterfaceWith` decodes the body
strictly as a chamber document; an empty body yields `io.EOF` and
malformed input yields a decode error. -/
def readInterfaceWith : RawBytes → BodyDecode
  | .empty => .eofErr
  | .malformed _ => .decodeErr
  | .chamberJson c _ => .ok c

/-- A storage entry: key path and raw value bytes, as in the storage
contract. -/
structure StorageEntry where
  Key : String
  Value : RawBytes

/-- Outcome of a storage `Get`: the distinguished not-found error, any
other error, or the entry.  Error constructors carry the `Error()`
message. -/
inductive GetOutcome where
  | notFound (msg : String)
  | err (msg : String)
  | found (entry : StorageEntry)

/-- Outcome of a storage `Delete`. -/
inductive DeleteOutcome where
  | done
  | notFound (msg : String)
  | err (msg : String)

/-- Outcome of a storage `List`: the child names, the `os.ErrNotExist`
case, or any other error. -/
inductive ListOutcome where
  | found (names : List String)
  | notExist (msg : String)
  | err (msg : String)

/-- Modelled from the spec: the abstract storage backend (the
`storage.Storage` interface), given by the outcome each operation would
return.  `put` returns the error message on failure and `none` on
success. -/
structure Backend where
  get : String → GetOutcome
  put : StorageEntry → Option String
  delete : String → DeleteOutcome
  list : String → ListOutcome

/-- One storage call made by the handler. -/
inductive StorageOp where
  | get (path : String)
  | put (entry : StorageEntry)
  | delete (path : String)
  | list (path : String)

/-- An HTTP request as the handler sees it: method, URL path and body
bytes. -/
structure Request where
  method : String
  urlPath : String
  body : RawBytes

/-- The `data` field of the response envelope: a chamber for GET, a name
list for LIST. -/
inductive RespData where
  | chamber (c : Chamber)
  | names (ns : List String)

/-- A response as written by `handleResponse`: status code plus the
envelope fields that are set. -/
structure Response where
  status : Nat
  data : Option RespData
  error : Option String

/-- The subset of `http.StatusText` reachable from the handler. -/
def statusText : Nat → String
  | 200 => "OK"
  | 201 => "Created"
  | 400 => "Bad Request"
  | 404 => "Not Found"
  | 405 => "Method Not Allowed"
  | 500 => "Internal Server Error"
  | _ => ""

/-- Go `fmt` `%q` for the plain ASCII paths involved here: the string in
double quotes. -/
def goQuote (s : String) : String :=
  "\"" ++ s ++ "\""

/-- Whether the second list is a leading segment of the first, matching
`strings.HasPrefix` on ASCII strings. -/
def listStartsWith : List Char → List Char → Bool
  | _, [] => true
  | [], _ :: _ => false
  | a :: as, b :: bs => a == b && listStartsWith as bs

/-- Go `strings.TrimPrefix(s, pre)`. -/
def goTrimPre (s pre : String) : String :=
  if listStartsWith s.data pre.data then ⟨s.data.drop pre.data.length⟩ else s

/-- Modelled from the spec: `utils.EnsureTrailingSlash` normalizes a key
path to end in a single trailing separator, appending `/` when the path
does not already end in one. -/
def ensureTrailingSlash (s : String) : String :=
  if s.data.getLast? == some '/' then s else s ++ "/"

/-- `handleResponse` from src/http/handler.go: the envelope omits `data`
when nil and `error` when empty. -/
def handleResponse (statusCode : Nat) (data : Option RespData) (error : String) : Response :=
  ⟨statusCode, data, if error = "" then none else some error⟩

/-- The `/v1/` handler of src/http/handler.go as a pure function: the
response written and the storage operations performed, in order.  The
per-request logging and the timeout wrapper carry no data flow observed
by the claims and are not modelled. -/
def handle (B : Backend) (r : Request) : Response × List StorageOp :=
  let path := goTrimPre r.urlPath "/v1"
  if r.method = "GET" then
    if path = "/" then (handleResponse 404 none ("path cannot be " ++ goQuote path), [])
    else
      match B.get path with
      | .notFound _ => (handleResponse 404 none (statusText 404), [.get path])
      | .err msg => (handleResponse 404 none msg, [.get path])
      | .found entry =>
        match unmarshalChamber entry.Value with
        | none => (handleResponse 500 none (statusText 500), [.get path])
        | some c => (handleResponse 200 (some (.chamber c)) "", [.get path])
  else if r.method = "POST" then
    match readInterfaceWith r.body with
    | .eofErr => (handleResponse 400 none "Request body must not be empty", [])
    | .decodeErr => (handleResponse 400 none (statusText 400), [])
    | .ok c =>
      let entry : StorageEntry := ⟨ensureTrailingSlash path ++ c.Name, r.body⟩
      match B.put entry with
      | some msg => (handleResponse 500 none msg, [.put entry])
      | none => (handleResponse 201 none "", [.put entry])
  else if r.method = "DELETE" then
    match B.delete path with
    | .done => (handleResponse 200 none "", [.delete path])
    | .notFound _ => (handleResponse 404 none (statusText 404), [.delete path])
    | .err msg => (handleResponse 500 none msg, [.delete path])
  else if r.method = "LIST" then
    match B.list path with
    | .found names => (handleResponse 200 (some (.names names)) "", [.list path])
    | .notExist _ => (handleResponse 404 none (statusText 404), [.list path])
    | .err msg => (handleResponse 500 none msg, [.list path])
  else (handleResponse 405 none (statusText 405), [])

/-! ## Concrete instances used by witnesses and counterexamples -/

/-- Boolean toggle with one override, as in the spec resolution
scenario. -/
def tC1 : Toggle := ⟨"feature", booleanType, .VBool true, [⟨"v1.0.0", "v1.5.0", .VBool false⟩]⟩

/-- String toggle with no overrides. -/
def tC1n : Toggle := ⟨"plain", stringType, .VString "s", []⟩

/-- First override of the overlapping pair for claim C2. -/
def oC2A : Override := ⟨"v1.0.0", "v1.5.0", .VBool false⟩

/-- Second override of the overlapping pair for claim C2. -/
def oC2B : Override := ⟨"v1.2.0", "v2.0.0", .VBool true⟩

/-- Toggle carrying the overlapping pair for claim C2. -/
def tC2w : Toggle := ⟨"t", booleanType, .VBool true, [oC2A, oC2B]⟩

/-- Two non-overlapping overrides whose second value has the wrong type:
validation fails although the ranges compare correctly. -/
def tC2a : Toggle :=
  ⟨"t", booleanType, .VBool true,
    [⟨"v1.0.0", "v1.2.0", .VBool false⟩, ⟨"v1.3.0", "v1.4.0", .VString "oops"⟩]⟩

/-- Three overrides whose first and third are stored in order with the
first maximum above the third minimum, while every consecutive pair
passes the check: validation succeeds although a pair compares
greater. -/
def tC2b : Toggle :=
  ⟨"t", booleanType, .VBool true,
    [⟨"v0.1.0", "v2.0.0", .VBool false⟩, ⟨"v2.0.0", "v1.0.0", .VBool false⟩,
      ⟨"v1.0.0", "v3.0.0", .VBool false⟩]⟩

/-- Override with an empty maximum version, for claim C3. -/
def oC3 : Override := ⟨"v1.0.0", "", .VBool false⟩

/-- Toggle carrying only `oC3`. -/
def tC3 : Toggle := ⟨"t", booleanType, .VBool true, [oC3]⟩

/-- Toggle whose two overrides touch at `v1.1.0`: it passes validation
while the consecutive ranges are not strictly ascending and both contain
the shared endpoint. -/
def tC4 : Toggle :=
  ⟨"t", booleanType, .VBool true,
    [⟨"v1.0.0", "v1.1.0", .VBool false⟩, ⟨"v1.1.0", "v1.2.0", .VBool false⟩]⟩

/-- Custom-typed toggle for claim C5. -/
def tC5 : Toggle := ⟨"t", customType, .VBool true, []⟩

/-- Boolean-typed toggle for the positive part of the C5 witness. -/
def tC5b : Toggle := ⟨"b", booleanType, .VBool true, []⟩

/-- Toggle whose own value is the nil interface. -/
def tC9a : Toggle := ⟨"t", booleanType, .VNil, []⟩

/-- Toggle whose first override value is the nil interface. -/
def tC9b : Toggle := ⟨"t", booleanType, .VBool true, [⟨"v1.0.0", "v2.0.0", .VNil⟩]⟩

/-- Backend whose get always reports the distinguished not-found
error. -/
def BC6 : Backend := ⟨fun _ => .notFound "missing", fun _ => none, fun _ => .done, fun _ => .found []⟩

/-- Backend whose put always succeeds. -/
def BC7 : Backend := ⟨fun _ => .notFound "", fun _ => none, fun _ => .done, fun _ => .found []⟩

/-- The chamber of the spec POST scenario. -/
def cC7 : Chamber := .mk "billing" [] [] false false

/-! ## Claims -/

/-- C1: resolution returns the toggle default value on the empty version;
on a non-empty version it returns the matched override value when
`GetOverride` finds one and the default value otherwise; and a toggle
with no overrides resolves to the default value for every version,
the empty one included. -/
theorem c1_resolution (t : Toggle) (v : String) :
    (v = "" → t.GetValueAt v = t.Value)
    ∧ (v ≠ "" → t.GetValueAt v = ((t.GetOverride v).elim t.Value Override.Value))
    ∧ (t.Overrides = [] → t.GetValueAt v = t.Value) := by
  refine ⟨fun h => by simp [Toggle.GetValueAt, h], fun h => ?_, fun h => ?_⟩
  · cases hov : t.GetOverride v <;> simp [Toggle.GetValueAt, h, hov]
  · by_cases hv : v = "" <;>
      simp [Toggle.GetValueAt, Toggle.GetOverride, h, findOverride, hv]

theorem c1_resolution_witness :
    tC1.GetValueAt "" = tC1.Value
    ∧ tC1.GetValueAt "v1.2.0" = ((tC1.GetOverride "v1.2.0").elim tC1.Value Override.Value)
    ∧ tC1n.GetValueAt "v9.9.9" = tC1n.Value :=
  ⟨(c1_resolution tC1 "").1 rfl,
    (c1_resolution tC1 "v1.2.0").2.1 (by decide),
    (c1_resolution tC1n "v9.9.9").2.2 rfl⟩

/-- C2 counterexample: with two stored overrides whose maximum and next
minimum compare less-than, validation still fails when the second
override value has the wrong type; and with an earlier override whose
maximum compares greater than a later (non-adjacent) override minimum,
validation succeeds because only consecutive pairs are compared.  Both
falsify the claimed equivalence as stated. -/
theorem c2_counterexample :
    (¬ semverCompare "v1.2.0" "v1.3.0" = 1 ∧ tC2a.unmarshalValidate ≠ .ok)
    ∧ (semverCompare "v2.0.0" "v1.0.0" = 1 ∧ tC2b.unmarshalValidate = .ok) := by
  decide

/-- C2 (amended): for a toggle whose overrides are exactly the pair
`[A, B]` and whose toggle value and both override values pass the type
check, validation during deserialization fails exactly when the
semantic-version comparison of the maximum of `A` against the minimum of
`B` yields greater-than, and succeeds when it yields equal or less. -/
theorem c2_amended (t : Toggle) (A B : Override) (hov : t.Overrides = [A, B])
    (ht : t.IsValidValue t.Value = .ok true)
    (hA : t.IsValidValue A.Value = .ok true)
    (hB : t.IsValidValue B.Value = .ok true) :
    t.unmarshalValidate ≠ .ok ↔ semverCompare A.MaximumVersion B.MinimumVersion = 1 := by
  by_cases hcmp : semverCompare A.MaximumVersion B.MinimumVersion = 1 <;>
    simp [Toggle.unmarshalValidate, ht, hov, checkOverrides, overlapsPrev, hA, hB, hcmp]

theorem c2_amended_witness :
    semverCompare oC2A.MaximumVersion oC2B.MinimumVersion = 1
    ∧ tC2w.unmarshalValidate ≠ .ok :=
  ⟨by decide,
    (c2_amended tC2w oC2A oC2B rfl (by decide) (by decide) (by decide)).mpr (by decide)⟩

/-- C3 counterexample: for an override with an empty maximum version the
spec containment (empty endpoint unbounded) holds at `v1.0.0`, but the
code containment fails there, `GetOverride` finds nothing, and resolution
falls back to the default value: an empty maximum is not treated as
unbounded. -/
theorem c3_counterexample :
    specContains oC3 "v1.0.0" = true
    ∧ rangeContains oC3 "v1.0.0" = false
    ∧ tC3.GetOverride "v1.0.0" = none
    ∧ tC3.GetValueAt "v1.0.0" = tC3.Value := by
  decide

/-- C3 (amended): `GetOverride` returns the first stored override whose
range contains the version under the source test
`compare(min, v) ≤ 0 ∧ compare(max, v) ≥ 0`, where an invalid version
string (the empty string included) compares below every valid version and
equal to other invalid ones — so an empty minimum admits every version
while an empty maximum admits only invalid ones — and returns none
exactly when no stored override range contains the version. -/
theorem c3_amended (t : Toggle) (v : String) :
    t.GetOverride v = t.Overrides.find? (fun o => rangeContains o v)
    ∧ (t.GetOverride v = none ↔ ∀ o ∈ t.Overrides, rangeContains o v = false) := by
  have hfind : ∀ l : List Override, findOverride v l = l.find? (fun o => rangeContains o v) := by
    intro l
    induction l with
    | nil => simp [findOverride]
    | cons o rest ih =>
      by_cases h : rangeContains o v = true
      · have h' := h
        simp only [rangeContains, Bool.and_eq_true, decide_eq_true_eq] at h'
        simp [findOverride, h, h']
      · have h' : ¬ (semverCompare o.MinimumVersion v ≤ 0 ∧ semverCompare o.MaximumVersion v ≥ 0) := by
          simpa [rangeContains, Bool.and_eq_true, decide_eq_true_eq] using h
        simp [findOverride, List.find?, h, h', ih]
  constructor
  · exact hfind t.Overrides
  · rw [Toggle.GetOverride, hfind t.Overrides, List.find?_eq_none]
    constructor
    · intro h o ho
      simpa using h o ho
    · intro h o ho
      simp [h o ho]

theorem c3_amended_witness :
    tC3.GetOverride "v1.2.0" = tC3.Overrides.find? (fun o => rangeContains o "v1.2.0") :=
  (c3_amended tC3 "v1.2.0").1

/-- The integer comparison on digit strings only takes the three Go
values. -/
theorem compareIntStr_mem (x y : List Char) :
    compareIntStr x y = -1 ∨ compareIntStr x y = 0 ∨ compareIntStr x y = 1 := by
  unfold compareIntStr
  split_ifs <;> simp

/-- The prerelease comparison loop only takes the three Go values. -/
theorem comparePreLoop_mem : ∀ x y : List Char,
    comparePreLoop x y = -1 ∨ comparePreLoop x y = 0 ∨ comparePreLoop x y = 1
  | [], y => by simp [comparePreLoop]
  | x :: xs, [] => by simp [comparePreLoop]
  | x :: xs, y :: ys => by
    rw [comparePreLoop]
    rcases hxs : nextIdent xs with ⟨dx, x1⟩
    rcases hys : nextIdent ys with ⟨dy, y1⟩
    simp only
    split_ifs <;> simp [comparePreLoop_mem x1 y1]
termination_by x y => x.length
decreasing_by
  have hlen : ∀ l : List Char, (nextIdent l).2.length ≤ l.length := by
    intro l
    induction l with
    | nil => simp [nextIdent]
    | cons a as ih =>
      by_cases h : a = '.'
      · simp [nextIdent, h]
      · simp [nextIdent, h]
        omega
  have h := hlen xs
  rw [hxs] at h
  simp only [List.length_cons] at h ⊢
  omega

/-- The prerelease comparison only takes the three Go values. -/
theorem comparePreRel_mem (x y : List Char) :
    comparePreRel x y = -1 ∨ comparePreRel x y = 0 ∨ comparePreRel x y = 1 := by
  unfold comparePreRel
  split_ifs <;> simp [comparePreLoop_mem]

/-- `semver.Compare` only takes the three Go values. -/
theorem semverCompare_mem (v w : String) :
    semverCompare v w = -1 ∨ semverCompare v w = 0 ∨ semverCompare v w = 1 := by
  unfold semverCompare
  cases semParse v.data with
  | none =>
    cases semParse w.data with
    | none => simp
    | some pw => simp
  | some pv =>
    cases semParse w.data with
    | none => simp
    | some pw =>
      simp only
      split_ifs <;>
        first
          | exact compareIntStr_mem _ _
          | exact comparePreRel_mem _ _

/-- A comparison that does not yield greater-than yields equal or
less. -/
theorem semverCompare_le_of_ne_one (v w : String) (h : semverCompare v w ≠ 1) :
    semverCompare v w ≤ 0 := by
  rcases semverCompare_mem v w with h1 | h1 | h1 <;> omega

/-- When the validation loop of `Toggle.UnmarshalJSON` succeeds, every
consecutive pair of the remaining overrides compares equal-or-less, and
the running previous override also compares equal-or-less against the
head. -/
theorem checkOverrides_ok_chain (t : Toggle) :
    ∀ (l : List Override) (prev : Option Override),
      checkOverrides t prev l = .ok →
      (l.Chain' (fun a b => semverCompare a.MaximumVersion b.MinimumVersion ≤ 0)
        ∧ ∀ p, prev = some p → ∀ o ∈ l.head?,
            semverCompare p.MaximumVersion o.MinimumVersion ≤ 0) := by
  intro l
  induction l with
  | nil =>
    intro prev h
    refine ⟨List.chain'_nil, fun p hp o ho => ?_⟩
    simp at ho
  | cons o rest ih =>
    intro prev h
    rw [checkOverrides] at h
    by_cases hov : overlapsPrev prev o = true
    · simp [hov] at h
    · rw [if_neg (by simp [hov])] at h
      cases hval : t.IsValidValue o.Value with
      | panicked => rw [hval] at h; simp at h
      | ok b =>
        cases b with
        | false => rw [hval] at h; simp at h
        | true =>
          rw [hval] at h
          obtain ⟨hchain, hhead⟩ := ih (some o) h
          refine ⟨List.chain'_cons'.mpr ⟨fun b hb => hhead o rfl b hb, hchain⟩,
            fun p hp o2 ho2 => ?_⟩
          subst hp
          simp only [List.head?_cons, Option.mem_def, Option.some.injEq] at ho2
          subst ho2
          apply semverCompare_le_of_ne_one
          intro hone
          exact hov (by simp [overlapsPrev, hone])

/-- C4 counterexample: the toggle `tC4` passes validation although its
consecutive override ranges touch: the first maximum does not compare
strictly below the second minimum and both ranges contain the shared
endpoint `v1.1.0`, so the stored ranges are neither strictly ascending
nor disjoint. -/
theorem c4_counterexample :
    tC4.unmarshalValidate = .ok
    ∧ ¬ semverCompare "v1.1.0" "v1.1.0" < 0
    ∧ rangeContains ⟨"v1.0.0", "v1.1.0", .VBool false⟩ "v1.1.0" = true
    ∧ rangeContains ⟨"v1.1.0", "v1.2.0", .VBool false⟩ "v1.1.0" = true := by
  decide

/-- C4 (amended): every toggle that passes the validation performed
during deserialization has its consecutive stored overrides `(prev, next)`
satisfying `compare(prev.maximumVersion, next.minimumVersion) ≤ 0`: the
ranges are ascending and may touch at a shared endpoint but may not cross
it. -/
theorem c4_amended (t : Toggle) (h : t.unmarshalValidate = .ok) :
    t.Overrides.Chain' (fun a b => semverCompare a.MaximumVersion b.MinimumVersion ≤ 0) := by
  rw [Toggle.unmarshalValidate] at h
  cases hval : t.IsValidValue t.Value with
  | panicked => rw [hval] at h; simp at h
  | ok b =>
    cases b with
    | false => rw [hval] at h; simp at h
    | true =>
      rw [hval] at h
      exact (checkOverrides_ok_chain t t.Overrides none h).1

theorem c4_amended_witness :
    tC4.Overrides.Chain' (fun a b => semverCompare a.MaximumVersion b.MinimumVersion ≤ 0) :=
  c4_amended tC4 (by decide)

/-- C5 counterexample: for a toggle of declared type custom,
`IsValidValue` does not return false on the nil interface value — it
panics — so the claim that it returns false for every value fails at
nil. -/
theorem c5_counterexample :
    tC5.Type' = customType
    ∧ tC5.IsValidValue .VNil = .panicked
    ∧ tC5.IsValidValue .VNil ≠ .ok false := by
  decide

/-- C5 (amended): for every value other than the nil interface,
`IsValidValue` returns true exactly when the runtime type of the value
matches the declared toggle type under boolean↔bool, string↔string and
number↔float64, and a toggle of declared type custom rejects every such
value. -/
theorem c5_amended (t : Toggle) (v : GoValue) (h : v ≠ .VNil) :
    (t.IsValidValue v = .ok true ↔ runtimeTypeMatches t v)
    ∧ (t.Type' = customType → t.IsValidValue v = .ok false) := by
  cases v with
  | VNil => exact absurd rfl h
  | VBool b =>
    constructor
    · simp [Toggle.IsValidValue, reflectTypeName, runtimeTypeMatches, beq_iff_eq]
    · intro hc
      simp [Toggle.IsValidValue, reflectTypeName, hc, booleanType, customType]
  | VString s =>
    constructor
    · simp [Toggle.IsValidValue, reflectTypeName, runtimeTypeMatches, beq_iff_eq]
    · intro hc
      simp [Toggle.IsValidValue, reflectTypeName, hc, stringType, customType]
  | VNumber p =>
    constructor
    · simp [Toggle.IsValidValue, reflectTypeName, runtimeTypeMatches, beq_iff_eq]
    · intro hc
      simp [Toggle.IsValidValue, reflectTypeName, hc, numberType, customType]
  | VOther tn =>
    constructor
    · by_cases h1 : tn = "bool"
      · simp [Toggle.IsValidValue, reflectTypeName, runtimeTypeMatches, beq_iff_eq, h1]
      · by_cases h2 : tn = "string"
        · simp [Toggle.IsValidValue, reflectTypeName, runtimeTypeMatches, beq_iff_eq, h1, h2]
        · by_cases h3 : tn = "float64" <;>
            simp [Toggle.IsValidValue, reflectTypeName, runtimeTypeMatches, beq_iff_eq,
              h1, h2, h3]
    · intro hc
      by_cases h1 : tn = "bool" <;> by_cases h2 : tn = "string" <;> by_cases h3 : tn = "float64" <;>
        simp [Toggle.IsValidValue, reflectTypeName, hc, h1, h2, h3,
          booleanType, stringType, numberType, customType]

theorem c5_amended_witness :
    tC5.IsValidValue (.VBool true) = .ok false
    ∧ tC5b.IsValidValue (.VBool true) = .ok true :=
  ⟨(c5_amended tC5 (.VBool true) (by decide)).2 rfl,
    (c5_amended tC5b (.VBool true) (by decide)).1.mpr (Or.inl ⟨rfl, rfl⟩)⟩

/-- C9: `IsValidValue` is not total — the nil interface value makes it
panic for every toggle, a toggle whose own value is nil makes the
deserialization validation panic instead of returning the type-mismatch
error, and a nil value on the first override does the same once the
toggle value itself passes the check. -/
theorem c9_nil_panics (t : Toggle) :
    t.IsValidValue .VNil = .panicked
    ∧ (t.Value = .VNil → t.unmarshalValidate = .panicked)
    ∧ (∀ o rest, t.IsValidValue t.Value = .ok true → t.Overrides = o :: rest →
        o.Value = .VNil → t.unmarshalValidate = .panicked) := by
  refine ⟨rfl, fun h => ?_, fun o rest hval hov hnil => ?_⟩
  · rw [Toggle.unmarshalValidate, h]
    rfl
  · rw [Toggle.unmarshalValidate, hval, hov, checkOverrides]
    rw [if_neg (by simp [overlapsPrev])]
    rw [hnil]
    rfl

theorem c9_nil_panics_witness :
    tC9a.unmarshalValidate = .panicked ∧ tC9b.unmarshalValidate = .panicked :=
  ⟨(c9_nil_panics tC9a).2.1 rfl,
    (c9_nil_panics tC9b).2.2 ⟨"v1.0.0", "v2.0.0", .VNil⟩ [] rfl rfl rfl⟩

set_option maxRecDepth 4000

/-- C6: a GET whose stripped path is the root responds 404 without any
storage call, whatever the backend; otherwise a not-found storage error
yields 404 with the generic not-found message, any other storage error
yields 404 carrying the raw error message, stored bytes that fail to
deserialize as a chamber yield 500 with the generic message, and
deserializable bytes yield 200 with the chamber as the data field. -/
theorem c6_get (B : Backend) (u : String) (b : RawBytes) :
    (goTrimPre u "/v1" = "/" →
      handle B ⟨"GET", u, b⟩ = (⟨404, none, some ("path cannot be " ++ goQuote "/")⟩, []))
    ∧ (goTrimPre u "/v1" ≠ "/" →
        (∀ m, B.get (goTrimPre u "/v1") = .notFound m →
          handle B ⟨"GET", u, b⟩ = (⟨404, none, some (statusText 404)⟩,
            [.get (goTrimPre u "/v1")]))
        ∧ (∀ m, B.get (goTrimPre u "/v1") = .err m →
          handle B ⟨"GET", u, b⟩ = (handleResponse 404 none m, [.get (goTrimPre u "/v1")]))
        ∧ (∀ e, B.get (goTrimPre u "/v1") = .found e → unmarshalChamber e.Value = none →
          handle B ⟨"GET", u, b⟩ = (⟨500, none, some (statusText 500)⟩,
            [.get (goTrimPre u "/v1")]))
        ∧ (∀ e c, B.get (goTrimPre u "/v1") = .found e → unmarshalChamber e.Value = some c →
          handle B ⟨"GET", u, b⟩ = (⟨200, some (.chamber c), none⟩,
            [.get (goTrimPre u "/v1")]))) := by
  constructor
  · intro hp
    simp [handle, hp, handleResponse, goQuote]
  · intro hp
    refine ⟨fun m hm => ?_, fun m hm => ?_, fun e he hu => ?_, fun e c he hu => ?_⟩
    · simp [handle, hp, hm, handleResponse, statusText]
    · simp [handle, hp, hm, handleResponse]
    · simp [handle, hp, he, hu, handleResponse, statusText]
    · simp [handle, hp, he, hu, handleResponse]

theorem c6_get_witness :
    handle BC6 ⟨"GET", "/v1/acme/billing", .empty⟩
      = (⟨404, none, some (statusText 404)⟩, [.get (goTrimPre "/v1/acme/billing" "/v1")]) :=
  ((c6_get BC6 "/v1/acme/billing" .empty).2 (by decide)).1 "missing" rfl

/-- C7: a POST whose body fails to decode responds 400 — with the
distinct empty-body message on an empty body — and performs no storage
call; otherwise the entry is stored under the trailing-slash-normalized
stripped path with the decoded chamber name appended, and the handler
responds 500 carrying the storage error detail when put fails and 201
with an empty envelope when it succeeds. -/
theorem c7_post (B : Backend) (u : String) (b : RawBytes) :
    (b = .empty →
      handle B ⟨"POST", u, b⟩ = (⟨400, none, some "Request body must not be empty"⟩, []))
    ∧ (∀ s, b = .malformed s →
      handle B ⟨"POST", u, b⟩ = (⟨400, none, some (statusText 400)⟩, []))
    ∧ (∀ c extra, b = .chamberJson c extra →
        (∀ m, B.put ⟨ensureTrailingSlash (goTrimPre u "/v1") ++ c.Name, b⟩ = some m →
          handle B ⟨"POST", u, b⟩ = (handleResponse 500 none m,
            [.put ⟨ensureTrailingSlash (goTrimPre u "/v1") ++ c.Name, b⟩]))
        ∧ (B.put ⟨ensureTrailingSlash (goTrimPre u "/v1") ++ c.Name, b⟩ = none →
          handle B ⟨"POST", u, b⟩ = (⟨201, none, none⟩,
            [.put ⟨ensureTrailingSlash (goTrimPre u "/v1") ++ c.Name, b⟩]))) := by
  refine ⟨fun hb => ?_, fun s hb => ?_, fun c extra hb => ⟨fun m hm => ?_, fun hm => ?_⟩⟩
  · subst hb
    simp [handle, readInterfaceWith, handleResponse]
  · subst hb
    simp [handle, readInterfaceWith, handleResponse, statusText]
  · subst hb
    simp [handle, readInterfaceWith, hm, handleResponse]
  · subst hb
    simp [handle, readInterfaceWith, hm, handleResponse]

theorem c7_post_witness :
    handle BC7 ⟨"POST", "/v1/acme/", .chamberJson cC7 ""⟩
      = (⟨201, none, none⟩,
        [.put ⟨ensureTrailingSlash (goTrimPre "/v1/acme/" "/v1") ++ cC7.Name,
          .chamberJson cC7 ""⟩]) :=
  ((c7_post BC7 "/v1/acme/" (.chamberJson cC7 "")).2.2 cC7 "" rfl).2 rfl

/-- C10: for a POST whose body decodes as a chamber, the entry handed to
storage carries exactly the received body bytes — for every byte-level
variant of the document and whether or not the put succeeds — rather
than a re-serialization of the decoded chamber, so content beyond the
decoded fields is preserved verbatim. -/
theorem c10_raw_body (B : Backend) (u : String) (c : Chamber) (extra : String) :
    (handle B ⟨"POST", u, .chamberJson c extra⟩).2
      = [.put ⟨ensureTrailingSlash (goTrimPre u "/v1") ++ c.Name, .chamberJson c extra⟩] := by
  cases hput : B.put ⟨ensureTrailingSlash (goTrimPre u "/v1") ++ c.Name, .chamberJson c extra⟩ <;>
    simp [handle, readInterfaceWith, hput]

/-- The child loop of `compile` is the concatenation, child by child in
stored order, of compiling each child with its toggle mapping replaced by
the inherited merge. -/
theorem compileKids_eq (tog : TogMap) (l : List Chamber) :
    compileKids tog l = (l.map (fun ch => compile (setToggles ch (ch.InheritWith tog)))).flatten := by
  induction l with
  | nil => rw [compileKids]; simp
  | cons ch rest ih => rw [compileKids]; simp [ih]

/-- C8: the compile walk is depth-first: each node is emitted to the
artifact `./<Name>.json` exactly when its buildable or app flag is set,
after which each child in stored order has its toggle mapping replaced by
`child.InheritWith(parent.Toggles)` before the walk recurses into it; the
root node itself is walked with its own toggle set unchanged. -/
theorem c8_compile (c : Chamber) :
    compile c =
      (if c.Buildable || c.App then [("./" ++ c.Name ++ ".json", c)] else [])
        ++ (c.Children.map (fun ch => compile (setToggles ch (ch.InheritWith c.Toggles)))).flatten := by
  rw [compile, compileKids_eq]
